import Mathlib

/-!
Verification of the waferslim SLIM-protocol core against its specification.

The development is a shallow embedding of `src/waferslim/protocol.py` and
`src/waferslim/converters.py` (Python 2).  Python byte strings (`str`) are
modelled as `List Nat` (one `Nat` per byte); text strings are mapped to their
UTF-8 bytes by an explicit encoder.  Fallible Python code is modelled with
`Except PyErr`, where `PyErr` distinguishes the exception classes that can
escape the translated functions.  The `waferslim.execution` module is not part
of the sources; the behaviour of its instruction objects is modelled from the
specification where a claim needs it (marked `Modelled from the spec:`).
-/

/-- Exception kinds that can escape the modelled Python functions.
`unpackingError` is the protocol module's own `UnpackingError`; the others are
Python built-ins (`ValueError` from `int()`, `IndexError` from out-of-range
indexing, `TypeError`, `KeyError` from a failed dict lookup,
`AttributeError`).  `fuelOut` is an artefact of the fuelled embedding of the
recursive decoder and is never produced when the fuel bound is sufficient. -/
inductive PyErr : Type where
  | unpackingError : PyErr
  | valueError : PyErr
  | indexError : PyErr
  | typeError : PyErr
  | keyError : PyErr
  | attributeError : PyErr
  | fuelOut : PyErr
deriving DecidableEq, Repr

/-! ## Byte-level constants of `protocol.py` -/

/-- Byte of `_START_CHUNK = '['`. -/
def startChunkB : Nat := 91

/-- Byte of `_END_CHUNK = ']'`. -/
def endChunkB : Nat := 93

/-- Byte of `_SEPARATOR = ':'`. -/
def separatorB : Nat := 58

/-- UTF-8 bytes of one character (standard UTF-8 from the code point); models
Python's utf-8 codec for a single character. -/
def utf8Char (c : Char) : List Nat :=
  let n := c.toNat
  if n < 128 then [n]
  else if n < 2048 then [192 + n / 64, 128 + n % 64]
  else if n < 65536 then [224 + n / 4096, 128 + n / 64 % 64, 128 + n % 64]
  else [240 + n / 262144, 128 + n / 4096 % 64, 128 + n / 64 % 64, 128 + n % 64]

/-- UTF-8 bytes of a text string; models `s.encode('utf-8')`. -/
def utf8Encode (s : String) : List Nat :=
  s.data.foldr (fun c acc => utf8Char c ++ acc) []

/-- Bytes of the `'null'` sentinel emitted by `_pack_item` for falsy items. -/
def nullB : List Nat := utf8Encode "null"

/-! ## Python built-in helpers used by the protocol code -/

/-- Python slice `s[a:b]` for byte strings (clamping, never failing). -/
def pySlice (s : List Nat) (a b : Nat) : List Nat :=
  (s.drop a).take (b - a)

/-- Python indexing `s[i]` for a nonnegative index: the byte, or `IndexError`
when the index is out of range. -/
def pyIndex (s : List Nat) (i : Nat) : Except PyErr Nat :=
  match s.get? i with
  | some c => .ok c
  | none => .error .indexError

/-- Decimal digit test for a byte (`'0'` = 48 … `'9'` = 57). -/
def isDigitB (b : Nat) : Bool := decide (48 ≤ b ∧ b ≤ 57)

/-- Python `int(s)` restricted to the nonnegative decimal numerals this
protocol produces: a nonempty all-digit string parses to its value, anything
else raises `ValueError`.  (Signs and surrounding whitespace, which `int()`
would also accept, never occur at the call sites modelled here.) -/
def pyIntParse (s : List Nat) : Except PyErr Nat :=
  if s.isEmpty then .error .valueError
  else if s.all isDigitB then .ok (s.foldl (fun a b => 10 * a + (b - 48)) 0)
  else .error .valueError

/-! ## Numeric encoding: `_NUMERIC_ENCODING = '%06d'` -/

/-- Decimal digit bytes of `n`, most significant first, via a structural fuel
argument (`fuel > n` suffices). -/
def natDigitsAux : Nat → Nat → List Nat
  | 0, _ => []
  | fuel + 1, n =>
    if n < 10 then [48 + n]
    else natDigitsAux fuel (n / 10) ++ [48 + n % 10]

/-- Decimal digit bytes of `n`, most significant first (`0` gives `"0"`). -/
def natDigits (n : Nat) : List Nat := natDigitsAux (n + 1) n

/-- Left pad with `'0'` bytes to width `w`; models the zero padding of
`'%06d'` (which never truncates). -/
def zeroPad (w : Nat) (ds : List Nat) : List Nat :=
  List.replicate (w - ds.length) 48 ++ ds

/-- The bytes of `'%06d' % n`. -/
def numEncode (n : Nat) : List Nat := zeroPad 6 (natDigits n)

/-! ## Wire values and `pack` -/

/-- A wire value: a (byte) string or a list of wire values.  This is the only
structural type crossing the codec boundary. -/
inductive WireVal : Type where
  | str (s : List Nat) : WireVal
  | list (l : List WireVal) : WireVal

/-- Python `_SEPARATOR.join(packed)`. -/
def sepJoin : List (List Nat) → List Nat
  | [] => []
  | [x] => x
  | x :: y :: xs => x ++ separatorB :: sepJoin (y :: xs)

/-- The string branch of `_pack_item`: `str_item = item and str(item) or
'null'` followed by `_ITEM_ENCODING % (len(str_item), _SEPARATOR, str_item)`.
A falsy (empty) byte string becomes the `'null'` sentinel; the length field is
the byte length of what is emitted. -/
def packStrItem (s : List Nat) : List Nat :=
  let strItem := if s = [] then nullB else s
  numEncode strItem.length ++ separatorB :: strItem

mutual
/-- `_pack_item`: a list is packed to a chunk first and then item-encoded like
a string; a string is item-encoded directly. -/
def packItem : WireVal → List Nat
  | .str s => packStrItem s
  | .list l =>
    packStrItem ([startChunkB] ++
      sepJoin (numEncode l.length :: packMapped l) ++ [separatorB, endChunkB])

/-- The list comprehension `[_pack_item(item) for item in item_list]`. -/
def packMapped : List WireVal → List (List Nat)
  | [] => []
  | v :: vs => packItem v :: packMapped vs
end

/-- `pack(item_list)`: `'[' + ':'.join(count :: items) + ':' + ']'`. -/
def pack (l : List WireVal) : List Nat :=
  [startChunkB] ++ sepJoin (numEncode l.length :: packMapped l) ++
    [separatorB, endChunkB]

/-! ## `unpack` and its validators -/

/-- `_is_chunk` without raising: `startswith('[') and endswith(']')`. -/
def isChunkShaped (s : List Nat) : Bool :=
  s.head? == some startChunkB && s.getLast? == some endChunkB

/-- `_is_chunk(…, raise_on_failure=True)` as used by `_check_chunk`: missing
leading `'['` or trailing `']'` raises `UnpackingError`. -/
def checkChunk (s : List Nat) : Except PyErr Unit :=
  if s.head? = some startChunkB then
    if s.getLast? = some endChunkB then .ok () else .error .unpackingError
  else .error .unpackingError

/-- `_check_separator(packed_chunk, pos)`: index the byte (IndexError when out
of range, exactly as `packed_chunk[pos]` behaves), then raise `UnpackingError`
unless it is the separator. -/
def checkSeparator (s : List Nat) (pos : Nat) : Except PyErr Unit :=
  match pyIndex s pos with
  | .error e => .error e
  | .ok c => if separatorB ≠ c then .error .unpackingError else .ok ()

/-- Python exception propagation: run the continuation unless an exception is
already in flight. -/
def exBind {α β : Type} : Except PyErr α → (α → Except PyErr β) → Except PyErr β
  | .error e, _ => .error e
  | .ok a, k => k a

/-- The `for i in range(0, chunk_len)` loop of `_unpack_chunk`, positional on
the full chunk string `s`.  `sub` decodes a nested chunk (it is
`unpackChunkF` at one lower fuel).  Faithful to the source order: read the
six-digit item length, check its separator, slice the item, check the
trailing separator, then recurse into the item when it is chunk shaped. -/
def unpackLoop (sub : List Nat → Except PyErr (List WireVal)) (s : List Nat) :
    Nat → Nat → Except PyErr (List WireVal)
  | _, 0 => .ok []
  | pos, n + 1 =>
    exBind (pyIntParse (pySlice s pos (pos + 6))) fun itemLen =>
    exBind (checkSeparator s (pos + 6)) fun _ =>
    let item := pySlice s (pos + 7) (pos + 7 + itemLen)
    exBind (checkSeparator s (pos + 7 + itemLen)) fun _ =>
    exBind
      (if isChunkShaped item then
        exBind (sub item) fun sc => .ok (WireVal.list sc)
      else .ok (WireVal.str item)) fun v =>
    exBind (unpackLoop sub s (pos + 7 + itemLen + 1) n) fun rest =>
    .ok (v :: rest)

/-- `_unpack_chunk`, with a structural fuel bounding the nesting depth (any
fuel above the byte length of the input is sufficient, see `unpack`). -/
def unpackChunkF : Nat → List Nat → Except PyErr (List WireVal)
  | 0, _ => .error .fuelOut
  | f + 1, s =>
    exBind (checkChunk s) fun _ =>
    exBind (pyIntParse (pySlice s 1 7)) fun chunkLen =>
    exBind (checkSeparator s 7) fun _ =>
    unpackLoop (unpackChunkF f) s 8 chunkLen

/-- An argument passed to `unpack`: a byte string, or any non-string value
(carrying only a description of itself, since `unpack` never inspects it). -/
inductive PyInput : Type where
  | str (s : List Nat) : PyInput
  | nonString (descr : List Nat) : PyInput

/-- `unpack(packed_string)`: strings are decoded by `_unpack_chunk`; any other
value raises `TypeError`.  Every nested chunk is a strictly shorter slice of
its parent, so `length + 1` fuel can never run out. -/
def unpack : PyInput → Except PyErr (List WireVal)
  | .str s => unpackChunkF (s.length + 1) s
  | .nonString _ => .error .typeError

/-! ## Normal form of `pack` -/

/-- The item region of a packed chunk: each packed item followed by one
separator.  `pack l` is `'['`, the count block, this region, then `']'`
(shown by `pack_eq_block`). -/
def packBlock : List WireVal → List Nat
  | [] => []
  | v :: vs => packItem v ++ separatorB :: packBlock vs

/-! ## Well-formed wire values: the domain on which the codec round-trips -/

mutual
/-- A wire value survives the encode/decode cycle exactly when the quirks of
the source cannot fire on it: a string leaf must be nonempty (a falsy string
is replaced by `'null'` when packing), must not look like a chunk (the decoder
would recurse into it), and must be shorter than `10^6` bytes (the length
field is positional, exactly six digits wide); a list node must have fewer
than `10^6` elements and a packed form shorter than `10^6` bytes, for the
same positional reasons, and well-formed members. -/
def wfVal : WireVal → Bool
  | .str s => !s.isEmpty && !isChunkShaped s && decide (s.length < 1000000)
  | .list l =>
    decide (l.length < 1000000) && decide ((pack l).length < 1000000) && wfList l

/-- All members of a list of wire values are well formed. -/
def wfList : List WireVal → Bool
  | [] => true
  | v :: vs => wfVal v && wfList vs
end

/-! ## Python values reaching `Results` (truthiness, `str()`, `repr()`) -/

/-- UTF-8 bytes of an ASCII literal, as shorthand for the byte strings of the
protocol. -/
def strBytes (s : String) : List Nat := utf8Encode s

/-- The Python values the results collector can receive: `None`, booleans,
(long) integers, byte strings and lists. -/
inductive PyVal : Type where
  | none : PyVal
  | pybool (b : Bool) : PyVal
  | pyint (n : Int) : PyVal
  | pystr (s : List Nat) : PyVal
  | pylist (l : List PyVal) : PyVal

/-- Python truthiness: `None`, `False`, `0`, the empty string and the empty
list are falsy; everything else is truthy. -/
def truthy : PyVal → Bool
  | .none => false
  | .pybool b => b
  | .pyint n => decide (n ≠ 0)
  | .pystr s => !s.isEmpty
  | .pylist l => !l.isEmpty

/-- Python `str()` of an integer: decimal digits, `'-'` sign when negative. -/
def intStr (n : Int) : List Nat :=
  if n < 0 then 45 :: natDigits n.natAbs else natDigits n.toNat

/-- Lowercase hex digit byte for a value below 16. -/
def hexDigitB (d : Nat) : Nat := if d < 10 then 48 + d else 87 + d

/-- One byte of a Python 2 `str.__repr__`: escape the backslash and the chosen
quote, the escapes tab, newline and carriage return, and any other byte
outside the printable ASCII range as lowercase `\x NN`; printable bytes stand
for themselves. -/
def reprEscape (quote : Nat) (b : Nat) : List Nat :=
  if b = 92 ∨ b = quote then [92, b]
  else if b = 9 then [92, 116]
  else if b = 10 then [92, 110]
  else if b = 13 then [92, 114]
  else if b < 32 ∨ 127 ≤ b then [92, 120, hexDigitB (b / 16 % 16), hexDigitB (b % 16)]
  else [b]

/-- Python 2 `repr` of a byte string: single quotes, switching to double
quotes when the string contains a single quote but no double quote, with
byte-wise escaping. -/
def strRepr (s : List Nat) : List Nat :=
  let quote := if s.contains 39 && !(s.contains 34) then 34 else 39
  quote :: (s.foldr (fun b acc => reprEscape quote b ++ acc) []) ++ [quote]

mutual
/-- Python 2 `repr()` on the modelled values; `str()` and `repr()` agree on
everything except strings, where `str` is the identity and `repr` quotes. -/
def pyRepr : PyVal → List Nat
  | .none => strBytes "None"
  | .pybool b => if b then strBytes "True" else strBytes "False"
  | .pyint n => intStr n
  | .pystr s => strRepr s
  | .pylist l => 91 :: pyReprInner l ++ [93]

/-- The comma-separated element repr list inside `repr` of a Python list. -/
def pyReprInner : List PyVal → List Nat
  | [] => []
  | [v] => pyRepr v
  | v :: w :: vs => pyRepr v ++ 44 :: 32 :: pyReprInner (w :: vs)
end

/-- Python 2 `str()` on the modelled values (a list stringifies via the repr
of its elements, exactly as `str(list)` does). -/
def pyStr : PyVal → List Nat
  | .none => strBytes "None"
  | .pybool b => if b then strBytes "True" else strBytes "False"
  | .pyint n => intStr n
  | .pystr s => s
  | .pylist l => pyRepr (.pylist l)

/-! ## Instructions: the factory of `protocol.py` -/

/-- The four instruction kinds of `_INSTRUCTION_TYPES`. -/
inductive InstrKind : Type where
  | make : InstrKind
  | imp : InstrKind
  | call : InstrKind
  | callAndAssign : InstrKind
deriving DecidableEq, Repr

/-- The `_INSTRUCTION_TYPES` dict lookup on the kind tag bytes. -/
def kindOf (s : List Nat) : Option InstrKind :=
  if s = strBytes "make" then some .make
  else if s = strBytes "import" then some .imp
  else if s = strBytes "call" then some .call
  else if s = strBytes "callAndAssign" then some .callAndAssign
  else none

/-- An instruction object as built by `instruction_for`: the class picked by
the kind tag, the id popped from position 0 (any wire value, echoed verbatim
by `instruction_id()`), and the remaining parameters. -/
structure Instr : Type where
  kind : InstrKind
  instruction_id : WireVal
  params : List WireVal

/-- `instruction_for(params)`: `params.pop(_TYPE_POSITION)` needs at least two
elements (otherwise `IndexError`); the popped kind tag is used as a dict key,
so a list tag raises `TypeError` (unhashable) and an unknown string tag
raises `KeyError`; otherwise `params.pop(_ID_POSITION)` yields the id and the
instruction object is built from the rest. -/
def instruction_for (params : List WireVal) : Except PyErr Instr :=
  match params with
  | p0 :: p1 :: rest =>
    match p1 with
    | .str k =>
      match kindOf k with
      | some kd => .ok ⟨kd, p0, rest⟩
      | none => .error .keyError
    | .list _ => .error .typeError
  | _ => .error .indexError

/-! ## The results collector (pure list view) -/

/-- Bytes of the `_OK` literal. -/
def okB : List Nat := strBytes "OK"

/-- Bytes of the `_NONE_STRING` void sentinel. -/
def voidB : List Nat := strBytes "/__VOID__/"

/-- Bytes of the `_EXCEPTION` marker. -/
def excMarkB : List Nat := strBytes "__EXCEPTION__:"

/-- One collected entry `[instruction_id, payload]`. -/
def mkEntry (id : WireVal) (payload : List Nat) : WireVal :=
  .list [id, .str payload]

/-- `Results.completed(instruction, result=NO_RESULT)` on the collected list.
`Option.none` models the `NO_RESULT` default (the `result == Results.NO_RESULT`
identity check, which no real value passes); a passed value goes through the
truthiness chain of the source: truthy values are recorded as `str(result)`,
every falsy value as the void sentinel. -/
def Results.completed (collected : List WireVal) (instruction : Instr)
    (result : Option PyVal) : List WireVal :=
  let strResult :=
    match result with
    | Option.none => okB
    | some r => if truthy r then pyStr r else voidB
  collected ++ [mkEntry instruction.instruction_id strResult]

/-- The exceptions of `waferslim.execution` known to the `_EXCEPTIONS` table,
plus an arbitrary exception of any other type (carrying its type name and its
`args[0]` message). -/
inductive PyExc : Type where
  | instructionException (msg : List Nat) : PyExc
  | noSuchClassException (msg : List Nat) : PyExc
  | noSuchConstructorException (msg : List Nat) : PyExc
  | noSuchInstanceException (msg : List Nat) : PyExc
  | noSuchMethodException (msg : List Nat) : PyExc
  | otherException (typeName : List Nat) (msg : List Nat) : PyExc

/-- `exception.args[0]` of the modelled exceptions. -/
def excArgs0 : PyExc → List Nat
  | .instructionException m => m
  | .noSuchClassException m => m
  | .noSuchConstructorException m => m
  | .noSuchInstanceException m => m
  | .noSuchMethodException m => m
  | .otherException _ m => m

/-- The `_EXCEPTIONS` dict, keyed on the exception type: the five known types
map to their tags; any other type is absent. -/
def excTag : PyExc → Option (List Nat)
  | .instructionException _ => some (strBytes "MALFORMED_INSTRUCTION")
  | .noSuchClassException _ => some (strBytes "NO_CLASS")
  | .noSuchConstructorException _ => some (strBytes "COULD_NOT_INVOKE_CONSTRUCTOR")
  | .noSuchInstanceException _ => some (strBytes "NO_INSTANCE")
  | .noSuchMethodException _ => some (strBytes "NO_METHOD_IN_CLASS")
  | .otherException _ _ => none

/-- `Results._translate(exception)`: format
`'%s message:<<%s %s>>' % (_EXCEPTION, _EXCEPTIONS[type(exception)],
exception.args[0])`.  The dict lookup raises `KeyError` for an exception type
that is not in the table; there is no generic fallback tag. -/
def Results.translate (exception : PyExc) : Except PyErr (List Nat) :=
  match excTag exception with
  | some tag =>
    .ok (excMarkB ++ strBytes " message:<<" ++ tag ++
      32 :: excArgs0 exception ++ strBytes ">>")
  | Option.none => .error .keyError

/-- `Results.raised(instruction, exception)`: translate, then append the
entry; a `KeyError` from `_translate` propagates before anything is
appended. -/
def Results.raised (collected : List WireVal) (instruction : Instr)
    (exception : PyExc) : Except PyErr (List WireVal) :=
  match Results.translate exception with
  | .error e => .error e
  | .ok msg => .ok (collected ++ [mkEntry instruction.instruction_id msg])

/-- `Results.collection()` in the pure list view: a fresh list extended with
the collected entries, so equal as a value to the collected list.  (The
aliasing content of the copy is modelled separately on a heap, see
`Results.collectionS`.) -/
def Results.collection (collected : List WireVal) : List WireVal :=
  [] ++ collected

/-! ## Instruction execution: `Instructions.execute` -/

/-- Modelled from the spec: the `waferslim.execution` module is not among the
source files, so the behaviour of an instruction body
(`instruction.execute(execution_context, results)`) is taken from the
specification (sections 4.4, 4.5 and 7): executing an instruction updates the
execution context and records exactly one outcome on the results collector —
`completed()` with no value, `completed(value)`, or `raised(exception)` — and
captures instruction errors rather than propagating them.  An `Outcome` is
that single recorded event; theorems quantify over arbitrary context types
and outcome functions satisfying this contract. -/
inductive Outcome : Type where
  | ok : Outcome
  | value (v : PyVal) : Outcome
  | raisedExc (e : PyExc) : Outcome

/-- Record one outcome on the collector, through the `Results` API exactly as
the source exposes it (`raised` can itself raise `KeyError`, see
`Results.translate`). -/
def applyOutcome (instruction : Instr) (collected : List WireVal) :
    Outcome → Except PyErr (List WireVal)
  | .ok => .ok (Results.completed collected instruction Option.none)
  | .value v => .ok (Results.completed collected instruction (some v))
  | .raisedExc e => Results.raised collected instruction e

/-- `Instructions.execute(execution_context, results)` with the instruction
bodies supplied by `exec` (Modelled from the spec, see `Outcome`).  The loop
builds each instruction with the factory and runs it; an exception from the
factory (unknown or missing kind tag) or from recording the outcome
propagates and stops the loop, while entries already appended to the results
object survive, matching the mutated Python list.  A top-level item that is a
string rather than a list makes `params.pop` fail with `AttributeError`. -/
def Instructions.execute {Ctx : Type} (exec : Instr → Ctx → Ctx × Outcome) :
    List WireVal → Ctx → List WireVal → Ctx × List WireVal × Option PyErr
  | [], ctx, collected => (ctx, collected, Option.none)
  | item :: rest, ctx, collected =>
    match item with
    | .str _ => (ctx, collected, some .attributeError)
    | .list params =>
      match instruction_for params with
      | .error e => (ctx, collected, some e)
      | .ok ins =>
        let (ctx', outc) := exec ins ctx
        match applyOutcome ins collected outc with
        | .error e => (ctx', collected, some e)
        | .ok collected' => Instructions.execute exec rest ctx' collected'

/-- Heads of well-formed batch items: a batch item is a list whose second
element is a string tag known to the instruction table. -/
def wfInstrItem : WireVal → Bool
  | .list (_ :: WireVal.str k :: _) => (kindOf k).isSome
  | _ => false

/-- The id position of a batch item (the element echoed into its result). -/
def itemId : WireVal → WireVal
  | .list (p0 :: _) => p0
  | _ => .str []

/-- An outcome whose exception, if any, is of a type the `_EXCEPTIONS` table
knows (so that `Results.raised` succeeds). -/
def outcomeKnown : Outcome → Bool
  | .raisedExc e => (excTag e).isSome
  | _ => true

/-- A trivial instruction body over a unit context; used to instantiate
sessions and batches in which no instruction body is ever consulted. -/
def execNoop : Instr → Unit → Unit × Outcome := fun _ c => (c, .ok)

/-! ## Heap view of the results collector (aliasing of `collection()`) -/

/-- A heap of Python list objects, addressed by allocation index: enough of
the object model to express which list object a `Results` method mutates and
which object `collection()` returns. -/
structure Store : Type where
  heap : Nat → List WireVal
  nextRef : Nat

/-- Mutate the list object at address `i` in place. -/
def Store.write (st : Store) (i : Nat) (v : List WireVal) : Store :=
  ⟨fun j => if j = i then v else st.heap j , st.nextRef⟩

/-- `Results.__init__`: `self._collected = []` allocates a fresh empty list
object and returns its address. -/
def Results.init (st : Store) : Store × Nat :=
  (⟨fun j => if j = st.nextRef then [] else st.heap j , st.nextRef + 1⟩,
    st.nextRef)

/-- `Results.completed` on the heap: appends to the list object that
`self._collected` references, in place. -/
def Results.completedS (st : Store) (r : Nat) (instruction : Instr)
    (result : Option PyVal) : Store :=
  st.write r (Results.completed (st.heap r) instruction result)

/-- `Results.raised` on the heap: in-place append, unless `_translate`
raises. -/
def Results.raisedS (st : Store) (r : Nat) (instruction : Instr)
    (exception : PyExc) : Except PyErr Store :=
  match Results.raised (st.heap r) instruction exception with
  | .error e => .error e
  | .ok l => .ok (st.write r l)

/-- `Results.collection()` on the heap: `collected = []` allocates a fresh
list object, `collected.extend(self._collected)` copies the entries into it,
and the fresh address — not `self._collected` — is returned. -/
def Results.collectionS (st : Store) (r : Nat) : Store × Nat :=
  (⟨fun j => if j = st.nextRef then st.heap r else st.heap j ,
      st.nextRef + 1⟩,
    st.nextRef)

/-! ## Converters (`converters.py`) -/

/-- Python 2 `str.lower()`: ASCII uppercase bytes mapped to lowercase. -/
def pyLower (s : List Nat) : List Nat :=
  s.map fun b => if 65 ≤ b ∧ b ≤ 90 then b + 32 else b

namespace TrueFalseConverter

/-- `TrueFalseConverter.from_string`: `value.lower() == 'true'`. -/
def from_string (value : List Nat) : Bool :=
  pyLower value == strBytes "true"

/-- `TrueFalseConverter.to_string` on the `bool` values this converter is
registered for: `value == True and 'true' or 'false'`.  (Python would also
answer `'true'` for the integer `1`, which equals `True`; the registry
dispatches this converter on `type(value) is bool` only.) -/
def to_string (value : Bool) : List Nat :=
  if value = true then strBytes "true" else strBytes "false"

end TrueFalseConverter

namespace YesNoConverter

/-- `YesNoConverter.from_string`: `value.lower() == 'yes'`. -/
def from_string (value : List Nat) : Bool :=
  pyLower value == strBytes "yes"

/-- `YesNoConverter.to_string` on `bool` values. -/
def to_string (value : Bool) : List Nat :=
  if value = true then strBytes "yes" else strBytes "no"

end YesNoConverter

/-- The Python types for which the module registers converters at import
time. -/
inductive PyType : Type where
  | bool : PyType
  | int : PyType
  | float : PyType
  | date : PyType
  | time : PyType
  | datetime : PyType
  | list : PyType
deriving DecidableEq, Repr

/-- The converter instances named in `converters.py`. -/
inductive ConverterInst : Type where
  | trueFalse : ConverterInst
  | yesNo : ConverterInst
  | fromConstructorInt : ConverterInst
  | fromConstructorFloat : ConverterInst
  | dateConv : ConverterInst
  | timeConv : ConverterInst
  | datetimeConv : ConverterInst
  | listConv : ConverterInst
deriving DecidableEq, Repr

/-- Every converter instance of the module subclasses `Converter`, so the
`hasattr` checks of `register_converter` find both `from_string` and
`to_string` on each of them (the base `from_string` exists even though it
raises `NotImplementedError` when called). -/
def hasBothOps : ConverterInst → Bool := fun _ => true

/-- `register_converter(for_type, converter_instance)`: store the instance
under the type when it exposes both operations, raise `TypeError`
otherwise.  The registry dict is modelled as an association list whose most
recent entry for a key wins. -/
def register_converter (reg : List (PyType × ConverterInst)) (for_type : PyType)
    (inst : ConverterInst) : Except PyErr (List (PyType × ConverterInst)) :=
  if hasBothOps inst then .ok ((for_type, inst) :: reg)
  else .error .typeError

/-- `_ALL_CONVERTERS` after the seven module-level registrations, in source
order. -/
def allConverters : Except PyErr (List (PyType × ConverterInst)) :=
  exBind (register_converter [] .bool .trueFalse) fun r1 =>
  exBind (register_converter r1 .int .fromConstructorInt) fun r2 =>
  exBind (register_converter r2 .float .fromConstructorFloat) fun r3 =>
  exBind (register_converter r3 .date .dateConv) fun r4 =>
  exBind (register_converter r4 .time .timeConv) fun r5 =>
  exBind (register_converter r5 .datetime .datetimeConv) fun r6 =>
  register_converter r6 .list .listConv

/-- `_ALL_CONVERTERS[t]` as an optional lookup (most recent entry wins). -/
def lookupConverter (t : PyType) : Option ConverterInst :=
  match allConverters with
  | .ok reg => (reg.find? fun p => p.1 == t).map (·.2)
  | .error _ => Option.none

/-! ## The session loop (`RequestResponder`) -/

/-- One connection: the bytes still to be received from the client and the
bytes sent so far. -/
structure Session : Type where
  inStream : List Nat
  outStream : List Nat

/-- `request.recv(n)`: take up to `n` bytes off the incoming stream. -/
def Session.recv (sess : Session) (n : Nat) : List Nat × Session :=
  (sess.inStream.take n, ⟨sess.inStream.drop n, sess.outStream⟩)

/-- `request.send(data)`: append to the outgoing stream; returns the byte
count sent, which the source adds to its totals. -/
def Session.send (sess : Session) (data : List Nat) : Nat × Session :=
  (data.length, ⟨sess.inStream, sess.outStream ++ data⟩)

/-- Bytes of `_VERSION = 'Slim -- V0.0\n'`. -/
def versionB : List Nat := strBytes "Slim -- V0.0\n"

/-- Bytes of `_DISCONNECT = 'bye'`. -/
def byeB : List Nat := strBytes "bye"

/-- `RequestResponder._get_message_length`: read exactly the 7 header bytes,
parse the first 6 as the body length, and report the header size. -/
def getMessageLength (sess : Session) : Except PyErr (Nat × Nat × Session) :=
  let (data, sess') := sess.recv 7
  match pyIntParse (pySlice data 0 6) with
  | .error e => .error e
  | .ok len => .ok (len, 7, sess')

/-- `RequestResponder._format_response`: `_ITEM_ENCODING % (len(msg_bytes),
_SEPARATOR, msg)` — note: no `null` substitution here, unlike
`_pack_item`. -/
def formatResponse (msg : List Nat) : List Nat :=
  numEncode msg.length ++ separatorB :: msg

/-- `RequestResponder._message_loop` with instruction bodies supplied as
`exec` (see `Outcome`), fuelled by an upper bound on the number of loop
iterations.  Messages are byte strings throughout: the source decodes the
received bytes as UTF-8 before comparing with `'bye'` and re-encodes before
sending, and these decode/encode pairs are the identity at the byte level on
the well-formed streams the theorems consider.  Faithful accounting: the
received total grows by the constant header size plus the parsed body length,
and by the count `send` returns. -/
def messageLoop {Ctx : Type} (exec : Instr → Ctx → Ctx × Outcome) :
    Nat → Ctx → List WireVal → Session → Nat → Nat →
      Except PyErr (Nat × Nat × Session)
  | 0, _, _, _, _, _ => .error .fuelOut
  | f + 1, ctx, collected, sess, received, sent =>
    match getMessageLength sess with
    | .error e => .error e
    | .ok (msgLen, hdrBytes, sess1) =>
      let (data, sess2) := sess1.recv msgLen
      if data = byeB then .ok (received + hdrBytes + msgLen, sent, sess2)
      else
        match unpack (.str data) with
        | .error e => .error e
        | .ok items =>
          match Instructions.execute exec items ctx collected with
          | (_, _, some e) => .error e
          | (ctx', collected', Option.none) =>
            let response := pack (Results.collection collected')
            let (n, sess3) := sess2.send (formatResponse response)
            messageLoop exec f ctx' collected' sess3
              (received + hdrBytes + msgLen) (sent + n)

/-- `RequestResponder.respond_to_request`: send the version banner, run the
message loop on a fresh context and collector, and return the totals with the
banner bytes added to the sent count.  The fuel bound `inStream.length + 1`
can never be exhausted: every iteration consumes at least the 7 header
bytes. -/
def respond_to_request {Ctx : Type} (exec : Instr → Ctx → Ctx × Outcome)
    (ctx : Ctx) (sess : Session) : Except PyErr (Nat × Nat × Session) :=
  let (ackBytes, sess1) := sess.send versionB
  match messageLoop exec (sess1.inStream.length + 1) ctx [] sess1 0 0 with
  | .error e => .error e
  | .ok (received, sent, sess2) => .ok (received, sent + ackBytes, sess2)

/-- The formatted exception payload `'__EXCEPTION__: message:<<TAG detail>>'`. -/
def excMessage (tag msg : List Nat) : List Nat :=
  excMarkB ++ strBytes " message:<<" ++ tag ++ 32 :: msg ++ strBytes ">>"

/-- A sample instruction object for concrete evaluations. -/
def demoInstr : Instr := ⟨.call, .str (strBytes "id"), []⟩

/-- A sample heap with one allocated (empty) results list at address 0. -/
def demoStore : Store := ⟨fun _ => [], 1⟩

/-- A sample well-formed two-instruction batch. -/
def demoBatch : List WireVal :=
  [WireVal.list [WireVal.str (strBytes "id1"), WireVal.str (strBytes "import"),
    WireVal.str (strBytes "mod")],
   WireVal.list [WireVal.str (strBytes "id2"), WireVal.str (strBytes "call"),
    WireVal.str (strBytes "inst"), WireVal.str (strBytes "m")]]

/-- A sample well-formed wire-value tree: two string leaves and one nested
list. -/
def demoTree : List WireVal :=
  [WireVal.str (strBytes "abc"),
   WireVal.list [WireVal.str (strBytes "x")],
   WireVal.str (strBytes "null")]

/-! ## Facts about the numeric encoding -/

theorem natDigitsAux_ne_nil : ∀ fuel n, n < fuel → natDigitsAux fuel n ≠ [] := by
  intro fuel
  induction fuel with
  | zero => intro n h; omega
  | succ f ih =>
    intro n _
    unfold natDigitsAux
    split
    · simp
    · simp

theorem natDigitsAux_digits : ∀ fuel n, n < fuel →
    ∀ b ∈ natDigitsAux fuel n, isDigitB b = true := by
  intro fuel
  induction fuel with
  | zero => intro n h; omega
  | succ f ih =>
    intro n hn b hb
    unfold natDigitsAux at hb
    split at hb
    · simp at hb
      simp [hb, isDigitB]
      omega
    · rename_i h10
      rcases List.mem_append.mp hb with h | h
      · exact ih (n / 10) (by
          have : n / 10 < n := Nat.div_lt_self (by omega) (by omega)
          omega) b h
      · simp at h
        simp [h, isDigitB]
        omega

theorem natDigitsAux_foldl : ∀ fuel n, n < fuel → ∀ a : Nat,
    (natDigitsAux fuel n).foldl (fun a b => 10 * a + (b - 48)) a =
      a * 10 ^ (natDigitsAux fuel n).length + n := by
  intro fuel
  induction fuel with
  | zero => intro n h; omega
  | succ f ih =>
    intro n hn a
    unfold natDigitsAux
    split
    · simp
      omega
    · rename_i h10
      have hdiv : n / 10 < f := by
        have : n / 10 < n := Nat.div_lt_self (by omega) (by omega)
        omega
      rw [List.foldl_append, List.length_append]
      rw [ih (n / 10) hdiv a]
      have hsub : 48 + n % 10 - 48 = n % 10 := by omega
      simp only [List.foldl_cons, List.foldl_nil, List.length_singleton, hsub]
      have hmod : 10 * (n / 10) + n % 10 = n := by omega
      calc 10 * (a * 10 ^ (natDigitsAux f (n / 10)).length + n / 10) + n % 10
          = a * (10 ^ (natDigitsAux f (n / 10)).length * 10) +
              (10 * (n / 10) + n % 10) := by ring
        _ = a * 10 ^ ((natDigitsAux f (n / 10)).length + 1) + n := by
              rw [hmod, pow_succ]

theorem natDigitsAux_len : ∀ fuel n k, n < fuel → 1 ≤ k → n < 10 ^ k →
    (natDigitsAux fuel n).length ≤ k := by
  intro fuel
  induction fuel with
  | zero => intro n k h; omega
  | succ f ih =>
    intro n k hn hk hpow
    unfold natDigitsAux
    split
    · simpa using hk
    · rename_i h10
      have hdiv : n / 10 < f := by
        have : n / 10 < n := Nat.div_lt_self (by omega) (by omega)
        omega
      obtain ⟨k', rfl⟩ : ∃ k', k = k' + 1 := ⟨k - 1, by omega⟩
      have hk' : 1 ≤ k' := by
        by_contra h
        have : k' = 0 := by omega
        subst this
        simp at hpow
        omega
      have hpow' : n / 10 < 10 ^ k' := by
        apply Nat.div_lt_of_lt_mul
        rw [← pow_succ']
        exact hpow
      have := ih (n / 10) k' hdiv hk' hpow'
      rw [List.length_append]
      simpa using this

theorem natDigits_ne_nil (n : Nat) : natDigits n ≠ [] :=
  natDigitsAux_ne_nil (n + 1) n (Nat.lt_succ_self n)

theorem natDigits_digits (n : Nat) : ∀ b ∈ natDigits n, isDigitB b = true :=
  natDigitsAux_digits (n + 1) n (Nat.lt_succ_self n)

theorem natDigits_len (n k : Nat) (hk : 1 ≤ k) (h : n < 10 ^ k) :
    (natDigits n).length ≤ k :=
  natDigitsAux_len (n + 1) n k (Nat.lt_succ_self n) hk h

theorem numEncode_len (n : Nat) (h : n < 1000000) : (numEncode n).length = 6 := by
  have hd : (natDigits n).length ≤ 6 := natDigits_len n 6 (by omega) (by norm_num; omega)
  simp [numEncode, zeroPad]
  omega

theorem numEncode_len_ge (n : Nat) : 6 ≤ (numEncode n).length := by
  simp [numEncode, zeroPad]
  omega

theorem foldl_replicate48 : ∀ k : Nat,
    (List.replicate k 48).foldl (fun a b => 10 * a + (b - 48)) 0 = 0 := by
  intro k
  induction k with
  | zero => rfl
  | succ k ih => simpa [List.replicate_succ] using ih

theorem pyIntParse_numEncode (n : Nat) : pyIntParse (numEncode n) = .ok n := by
  have hne : natDigits n ≠ [] := natDigits_ne_nil n
  have hdig : ∀ b ∈ natDigits n, isDigitB b = true := natDigits_digits n
  unfold pyIntParse numEncode zeroPad
  have hnonempty :
      (List.replicate (6 - (natDigits n).length) 48 ++ natDigits n).isEmpty = false := by
    rcases h : List.replicate (6 - (natDigits n).length) 48 ++ natDigits n with _ | _
    · exact absurd (List.append_eq_nil.mp h).2 hne
    · rfl
  rw [hnonempty]
  simp only [Bool.false_eq_true, if_false]
  have h1 : (List.replicate (6 - (natDigits n).length) 48).all isDigitB = true := by
    simp only [List.all_eq_true, List.mem_replicate]
    rintro b ⟨-, rfl⟩
    rfl
  have h2 : (natDigits n).all isDigitB = true := List.all_eq_true.mpr hdig
  rw [List.all_append, h1, h2]
  simp only [Bool.and_self, if_true]
  rw [List.foldl_append, foldl_replicate48]
  have := natDigitsAux_foldl (n + 1) n (Nat.lt_succ_self n) 0
  simpa [natDigits] using this

/-! ## Positional slicing and indexing facts -/

theorem pySlice_exact (pre mid post : List Nat) :
    pySlice (pre ++ mid ++ post) pre.length (pre.length + mid.length) = mid := by
  unfold pySlice
  rw [List.append_assoc, Nat.add_sub_cancel_left, List.drop_left, List.take_left]

theorem pySlice_exact' (s pre mid post : List Nat) (a b : Nat)
    (hs : s = pre ++ mid ++ post) (ha : a = pre.length)
    (hb : b = pre.length + mid.length) : pySlice s a b = mid := by
  subst hs ha hb
  exact pySlice_exact pre mid post

theorem get?_at (pre : List Nat) (c : Nat) (post : List Nat) :
    (pre ++ c :: post).get? pre.length = some c := by
  induction pre with
  | nil => rfl
  | cons a t ih => simpa using ih

theorem pyIndex_at (pre : List Nat) (c : Nat) (post : List Nat) :
    pyIndex (pre ++ c :: post) pre.length = .ok c := by
  unfold pyIndex
  rw [get?_at]

theorem pyIndex_oob (s : List Nat) (i : Nat) (h : s.length ≤ i) :
    pyIndex s i = .error .indexError := by
  unfold pyIndex
  rw [List.get?_eq_none.mpr h]

theorem checkSeparator_at (pre post : List Nat) :
    checkSeparator (pre ++ separatorB :: post) pre.length = .ok () := by
  simp [checkSeparator, pyIndex_at]

theorem checkSeparator_at' (s pre post : List Nat) (a : Nat)
    (hs : s = pre ++ separatorB :: post) (ha : a = pre.length) :
    checkSeparator s a = .ok () := by
  subst hs ha
  exact checkSeparator_at pre post

theorem checkSeparator_ne (pre : List Nat) (c : Nat) (post : List Nat)
    (h : c ≠ separatorB) :
    checkSeparator (pre ++ c :: post) pre.length = .error .unpackingError := by
  simp only [checkSeparator, pyIndex_at]
  rw [if_pos (fun hc => h hc.symm)]

theorem checkSeparator_ne' (s pre post : List Nat) (c : Nat) (a : Nat)
    (hs : s = pre ++ c :: post) (ha : a = pre.length) (h : c ≠ separatorB) :
    checkSeparator s a = .error .unpackingError := by
  subst hs ha
  exact checkSeparator_ne pre c post h

theorem checkSeparator_oob (s : List Nat) (i : Nat) (h : s.length ≤ i) :
    checkSeparator s i = .error .indexError := by
  simp [checkSeparator, pyIndex_oob s i h]

theorem sepJoin_block (x : List Nat) (vs : List WireVal) :
    sepJoin (x :: packMapped vs) ++ [separatorB] = x ++ separatorB :: packBlock vs := by
  induction vs generalizing x with
  | nil => simp [packMapped, sepJoin, packBlock]
  | cons v vs ih =>
    show sepJoin (x :: packItem v :: packMapped vs) ++ [separatorB] = _
    rw [show sepJoin (x :: packItem v :: packMapped vs) =
      x ++ separatorB :: sepJoin (packItem v :: packMapped vs) from rfl]
    rw [List.append_assoc]
    rw [show (separatorB :: sepJoin (packItem v :: packMapped vs)) ++ [separatorB] =
      separatorB :: (sepJoin (packItem v :: packMapped vs) ++ [separatorB]) from rfl]
    rw [ih (packItem v)]
    rfl

theorem pack_eq_block (l : List WireVal) :
    pack l = (startChunkB :: numEncode l.length ++ [separatorB]) ++
      packBlock l ++ [endChunkB] := by
  show [startChunkB] ++ sepJoin (numEncode l.length :: packMapped l) ++
      [separatorB, endChunkB] = _
  rw [show [separatorB, endChunkB] = [separatorB] ++ [endChunkB] from rfl]
  rw [show [startChunkB] ++ sepJoin (numEncode l.length :: packMapped l) ++
        ([separatorB] ++ [endChunkB]) =
      [startChunkB] ++ (sepJoin (numEncode l.length :: packMapped l) ++ [separatorB]) ++
        [endChunkB] by simp [List.append_assoc]]
  rw [sepJoin_block]
  simp [List.append_assoc]

/-! ## Shape facts about packed chunks -/

theorem packItem_str (s : List Nat) : packItem (.str s) = packStrItem s := by
  rfl

theorem packItem_list (l : List WireVal) :
    packItem (.list l) = packStrItem (pack l) := by
  rfl

theorem packStrItem_of_ne_nil (s : List Nat) (h : s ≠ []) :
    packStrItem s = numEncode s.length ++ separatorB :: s := by
  simp [packStrItem, h]

theorem pack_head (l : List WireVal) : (pack l).head? = some startChunkB := by
  rfl

theorem pack_getLast (l : List WireVal) : (pack l).getLast? = some endChunkB := by
  rw [pack_eq_block]
  rw [show (startChunkB :: numEncode l.length ++ [separatorB]) ++
      packBlock l ++ [endChunkB] =
    ((startChunkB :: numEncode l.length ++ [separatorB]) ++ packBlock l) ++
      [endChunkB] by simp [List.append_assoc]]
  exact List.getLast?_concat _

theorem pack_ne_nil (l : List WireVal) : pack l ≠ [] := by
  intro h
  have := pack_head l
  rw [h] at this
  simp at this

theorem isChunkShaped_pack (l : List WireVal) : isChunkShaped (pack l) = true := by
  simp [isChunkShaped, pack_head, pack_getLast]

theorem checkChunk_pack (l : List WireVal) : checkChunk (pack l) = .ok () := by
  simp [checkChunk, pack_head, pack_getLast]

/-! ## Length bounds for nested chunks -/

theorem packBlock_mem_length (l : List WireVal) (v : WireVal) (h : v ∈ l) :
    (packItem v).length + 1 ≤ (packBlock l).length := by
  induction l with
  | nil => cases h
  | cons w ws ih =>
    rcases List.mem_cons.mp h with rfl | h
    · simp only [packBlock, List.length_append, List.length_cons]
      omega
    · have := ih h
      simp only [packBlock, List.length_append, List.length_cons]
      omega

theorem packItem_length_le (l : List WireVal) (v : WireVal) (h : v ∈ l) :
    (packItem v).length + 10 ≤ (pack l).length := by
  have hb := packBlock_mem_length l v h
  have hn := numEncode_len_ge l.length
  rw [pack_eq_block]
  simp only [List.length_append, List.length_cons, List.length_singleton]
  omega

theorem pack_sub_length (l : List WireVal) (l' : List WireVal)
    (h : WireVal.list l' ∈ l) : (pack l').length + 17 ≤ (pack l).length := by
  have hi := packItem_length_le l (.list l') h
  rw [packItem_list, packStrItem_of_ne_nil _ (pack_ne_nil l')] at hi
  have hn := numEncode_len_ge (pack l').length
  simp only [List.length_append, List.length_cons] at hi
  omega

theorem wfList_mem (l : List WireVal) (hl : wfList l = true) :
    ∀ v ∈ l, wfVal v = true := by
  induction l with
  | nil => intro v hv; cases hv
  | cons w ws ih =>
    rw [wfList] at hl
    simp only [Bool.and_eq_true] at hl
    obtain ⟨h1, h2⟩ := hl
    intro v hv
    rcases List.mem_cons.mp hv with rfl | hv
    · exact h1
    · exact ih h2 v hv

theorem exBind_ok {α β : Type} (a : α) (k : α → Except PyErr β) :
    exBind (.ok a) k = k a := rfl

theorem exBind_error {α β : Type} (e : PyErr) (k : α → Except PyErr β) :
    exBind (.error e) k = .error e := rfl

theorem unpackChunkF_succ (f : Nat) (s : List Nat) :
    unpackChunkF (f + 1) s =
      exBind (checkChunk s) fun _ =>
      exBind (pyIntParse (pySlice s 1 7)) fun chunkLen =>
      exBind (checkSeparator s 7) fun _ =>
      unpackLoop (unpackChunkF f) s 8 chunkLen := rfl

theorem unpackLoop_succ (sub : List Nat → Except PyErr (List WireVal))
    (s : List Nat) (pos n : Nat) :
    unpackLoop sub s pos (n + 1) =
      (exBind (pyIntParse (pySlice s pos (pos + 6))) fun itemLen =>
      exBind (checkSeparator s (pos + 6)) fun _ =>
      let item := pySlice s (pos + 7) (pos + 7 + itemLen)
      exBind (checkSeparator s (pos + 7 + itemLen)) fun _ =>
      exBind
        (if isChunkShaped item then
          exBind (sub item) fun sc => .ok (WireVal.list sc)
        else .ok (WireVal.str item)) fun v =>
      exBind (unpackLoop sub s (pos + 7 + itemLen + 1) n) fun rest =>
      .ok (v :: rest)) := rfl

/-! ## Round trip of the codec on well-formed values -/

theorem unpackLoop_cons (sub : List Nat → Except PyErr (List WireVal))
    (pre post p : List Nat) (vs : List WireVal) (v : WireVal)
    (hlen : p.length < 1000000)
    (hitem : (if isChunkShaped p then
        exBind (sub p) fun sc => .ok (WireVal.list sc)
      else .ok (WireVal.str p)) = .ok v)
    (hrest : unpackLoop sub
      (pre ++ ((numEncode p.length ++ separatorB :: p) ++
        separatorB :: packBlock vs) ++ post)
      (pre.length + 7 + p.length + 1) vs.length = .ok vs) :
    unpackLoop sub
      (pre ++ ((numEncode p.length ++ separatorB :: p) ++
        separatorB :: packBlock vs) ++ post)
      pre.length (vs.length + 1) = .ok (v :: vs) := by
  have h6 := numEncode_len p.length hlen
  have h1 : pySlice
      (pre ++ ((numEncode p.length ++ separatorB :: p) ++
        separatorB :: packBlock vs) ++ post)
      pre.length (pre.length + 6) = numEncode p.length :=
    pySlice_exact' _ pre (numEncode p.length)
      (separatorB :: (p ++ separatorB :: (packBlock vs ++ post))) _ _
      (by simp [List.append_assoc, List.cons_append]) rfl (by rw [h6])
  have h2 : checkSeparator
      (pre ++ ((numEncode p.length ++ separatorB :: p) ++
        separatorB :: packBlock vs) ++ post)
      (pre.length + 6) = .ok () :=
    checkSeparator_at' _ (pre ++ numEncode p.length)
      (p ++ separatorB :: (packBlock vs ++ post)) _
      (by simp [List.append_assoc, List.cons_append])
      (by simp only [List.length_append, h6])
  have h3 : pySlice
      (pre ++ ((numEncode p.length ++ separatorB :: p) ++
        separatorB :: packBlock vs) ++ post)
      (pre.length + 7) (pre.length + 7 + p.length) = p :=
    pySlice_exact' _ (pre ++ numEncode p.length ++ [separatorB]) p
      (separatorB :: (packBlock vs ++ post)) _ _
      (by simp [List.append_assoc, List.cons_append])
      (by simp only [List.length_append, List.length_cons, List.length_nil, h6])
      (by simp only [List.length_append, List.length_cons, List.length_nil, h6])
  have h4 : checkSeparator
      (pre ++ ((numEncode p.length ++ separatorB :: p) ++
        separatorB :: packBlock vs) ++ post)
      (pre.length + 7 + p.length) = .ok () :=
    checkSeparator_at' _ (pre ++ numEncode p.length ++ separatorB :: p)
      (packBlock vs ++ post) _
      (by simp [List.append_assoc, List.cons_append])
      (by simp only [List.length_append, List.length_cons, h6]
          omega)
  simp only [unpackLoop, h1, pyIntParse_numEncode, exBind_ok, h2, h3, h4,
    hitem, hrest]

theorem unpackLoop_ok (sub : List Nat → Except PyErr (List WireVal))
    (post : List Nat) :
    ∀ (vs : List WireVal) (pre : List Nat),
      (∀ v ∈ vs, wfVal v = true) →
      (∀ l', WireVal.list l' ∈ vs → sub (pack l') = .ok l') →
      unpackLoop sub (pre ++ packBlock vs ++ post) pre.length vs.length =
        .ok vs := by
  intro vs
  induction vs with
  | nil =>
    intro pre _ _
    rfl
  | cons v vs ih =>
    intro pre hwf hsub
    have hwfv : wfVal v = true := hwf v (List.mem_cons_self v vs)
    have hwf' : ∀ w ∈ vs, wfVal w = true := fun w hw =>
      hwf w (List.mem_cons_of_mem v hw)
    have hsub' : ∀ l', WireVal.list l' ∈ vs → sub (pack l') = .ok l' :=
      fun l' hl' => hsub l' (List.mem_cons_of_mem v hl')
    rw [show (v :: vs).length = vs.length + 1 from rfl]
    cases v with
    | str strb =>
      simp only [wfVal, Bool.and_eq_true, Bool.not_eq_true',
        decide_eq_true_eq] at hwfv
      obtain ⟨⟨hne, hchunk⟩, hlen⟩ := hwfv
      have hne' : strb ≠ [] := by
        intro h
        subst h
        simp at hne
      rw [show packBlock (WireVal.str strb :: vs) =
          (numEncode strb.length ++ separatorB :: strb) ++
            separatorB :: packBlock vs by
        simp [packBlock, packItem_str, packStrItem_of_ne_nil strb hne']]
      have hrest : unpackLoop sub
          (pre ++ ((numEncode strb.length ++ separatorB :: strb) ++
            separatorB :: packBlock vs) ++ post)
          (pre.length + 7 + strb.length + 1) vs.length = .ok vs := by
        have h0 := ih (pre ++ (numEncode strb.length ++ separatorB :: strb) ++
          [separatorB]) hwf' hsub'
        have hS : (pre ++ (numEncode strb.length ++ separatorB :: strb) ++
            [separatorB]) ++ packBlock vs ++ post =
            pre ++ ((numEncode strb.length ++ separatorB :: strb) ++
              separatorB :: packBlock vs) ++ post := by
          simp [List.append_assoc, List.cons_append]
        have hP : (pre ++ (numEncode strb.length ++ separatorB :: strb) ++
            [separatorB]).length = pre.length + 7 + strb.length + 1 := by
          simp only [List.length_append, List.length_cons, List.length_nil,
            numEncode_len strb.length hlen]
          omega
        rw [hS, hP] at h0
        exact h0
      exact unpackLoop_cons sub pre post strb vs (WireVal.str strb) hlen
        (by rw [hchunk]; rfl) hrest
    | list l' =>
      simp only [wfVal, Bool.and_eq_true, decide_eq_true_eq] at hwfv
      obtain ⟨⟨hl1, hl2⟩, hl3⟩ := hwfv
      have hsubl : sub (pack l') = .ok l' :=
        hsub l' (List.mem_cons_self _ _)
      rw [show packBlock (WireVal.list l' :: vs) =
          (numEncode (pack l').length ++ separatorB :: pack l') ++
            separatorB :: packBlock vs by
        simp [packBlock, packItem_list, packStrItem_of_ne_nil _ (pack_ne_nil l')]]
      have hrest : unpackLoop sub
          (pre ++ ((numEncode (pack l').length ++ separatorB :: pack l') ++
            separatorB :: packBlock vs) ++ post)
          (pre.length + 7 + (pack l').length + 1) vs.length = .ok vs := by
        have h0 := ih (pre ++ (numEncode (pack l').length ++
          separatorB :: pack l') ++ [separatorB]) hwf' hsub'
        have hS : (pre ++ (numEncode (pack l').length ++
            separatorB :: pack l') ++ [separatorB]) ++ packBlock vs ++ post =
            pre ++ ((numEncode (pack l').length ++ separatorB :: pack l') ++
              separatorB :: packBlock vs) ++ post := by
          simp [List.append_assoc, List.cons_append]
        have hP : (pre ++ (numEncode (pack l').length ++
            separatorB :: pack l') ++ [separatorB]).length =
            pre.length + 7 + (pack l').length + 1 := by
          simp only [List.length_append, List.length_cons, List.length_nil,
            numEncode_len (pack l').length hl2]
          omega
        rw [hS, hP] at h0
        exact h0
      exact unpackLoop_cons sub pre post (pack l') vs (WireVal.list l') hl2
        (by rw [isChunkShaped_pack, if_pos rfl, hsubl]; rfl) hrest

theorem unpackChunkF_pack : ∀ (f : Nat) (l : List WireVal),
    wfList l = true → l.length < 1000000 → (pack l).length < f →
    unpackChunkF f (pack l) = .ok l := by
  intro f
  induction f with
  | zero => intro l _ _ h; omega
  | succ g ih =>
    intro l hwf hlen hf
    have h6 := numEncode_len l.length hlen
    have hcc : checkChunk (pack l) = .ok () := checkChunk_pack l
    have h1 : pySlice (pack l) 1 7 = numEncode l.length := by
      apply pySlice_exact' _ [startChunkB] (numEncode l.length)
        (separatorB :: (packBlock l ++ [endChunkB])) 1 7
      · rw [pack_eq_block]
        simp [List.append_assoc, List.cons_append]
      · rfl
      · simp [h6]
    have h2 : checkSeparator (pack l) 7 = .ok () := by
      apply checkSeparator_at' _ (startChunkB :: numEncode l.length)
        (packBlock l ++ [endChunkB]) 7
      · rw [pack_eq_block]
        simp [List.append_assoc, List.cons_append]
      · simp [h6]
    have hsub : ∀ l', WireVal.list l' ∈ l →
        unpackChunkF g (pack l') = .ok l' := by
      intro l' hmem
      have hb := pack_sub_length l l' hmem
      have hwfv := wfList_mem l hwf _ hmem
      simp only [wfVal, Bool.and_eq_true, decide_eq_true_eq] at hwfv
      obtain ⟨⟨ha1, ha2⟩, ha3⟩ := hwfv
      exact ih l' ha3 ha1 (by omega)
    have hloop : unpackLoop (unpackChunkF g) (pack l) 8 l.length = .ok l := by
      have h0 := unpackLoop_ok (unpackChunkF g) [endChunkB] l
        (startChunkB :: numEncode l.length ++ [separatorB])
        (wfList_mem l hwf) hsub
      have hS : (startChunkB :: numEncode l.length ++ [separatorB]) ++
          packBlock l ++ [endChunkB] = pack l := (pack_eq_block l).symm
      have hP : (startChunkB :: numEncode l.length ++ [separatorB]).length = 8 := by
        simp only [List.length_cons, List.length_append, List.length_nil, h6]
      rw [hS, hP] at h0
      exact h0
    simp only [unpackChunkF, hcc, exBind_ok, h1, pyIntParse_numEncode, h2, hloop]

theorem unpack_pack_wf (l : List WireVal) (hwf : wfList l = true)
    (hlen : l.length < 1000000) : unpack (.str (pack l)) = .ok l := by
  show unpackChunkF ((pack l).length + 1) (pack l) = .ok l
  exact unpackChunkF_pack ((pack l).length + 1) l hwf hlen (Nat.lt_succ_self _)

/-! ## Decoder rejection behaviour -/

theorem unpack_no_lead (s : List Nat) (h : s.head? ≠ some startChunkB) :
    unpack (.str s) = .error .unpackingError := by
  have hcc : checkChunk s = .error .unpackingError := by
    unfold checkChunk
    rw [if_neg h]
  show unpackChunkF (s.length + 1) s = .error .unpackingError
  simp only [unpackChunkF, hcc, exBind_error]

theorem unpack_no_trail (s : List Nat) (h1 : s.head? = some startChunkB)
    (h2 : s.getLast? ≠ some endChunkB) :
    unpack (.str s) = .error .unpackingError := by
  have hcc : checkChunk s = .error .unpackingError := by
    unfold checkChunk
    rw [if_pos h1, if_neg h2]
  show unpackChunkF (s.length + 1) s = .error .unpackingError
  simp only [unpackChunkF, hcc, exBind_error]

theorem unpack_bad_sep_after_count (n : Nat) (c : Nat) (rest : List Nat)
    (hn : n < 1000000) (hc : c ≠ separatorB) :
    unpack (.str ((startChunkB :: numEncode n) ++ c :: (rest ++ [endChunkB]))) =
      .error .unpackingError := by
  have h6 := numEncode_len n hn
  have hhead : ((startChunkB :: numEncode n) ++
      c :: (rest ++ [endChunkB])).head? = some startChunkB := rfl
  have hlast : ((startChunkB :: numEncode n) ++
      c :: (rest ++ [endChunkB])).getLast? = some endChunkB := by
    rw [show (startChunkB :: numEncode n) ++ c :: (rest ++ [endChunkB]) =
        ((startChunkB :: numEncode n) ++ c :: rest) ++ [endChunkB] by
      simp [List.append_assoc, List.cons_append]]
    exact List.getLast?_concat _
  have hcc : checkChunk ((startChunkB :: numEncode n) ++
      c :: (rest ++ [endChunkB])) = .ok () := by
    unfold checkChunk
    rw [if_pos hhead, if_pos hlast]
  have h1 : pySlice ((startChunkB :: numEncode n) ++
      c :: (rest ++ [endChunkB])) 1 7 = numEncode n :=
    pySlice_exact' _ [startChunkB] (numEncode n) (c :: (rest ++ [endChunkB])) _ _
      (by simp [List.append_assoc, List.cons_append]) rfl (by simp [h6])
  have h2 : checkSeparator ((startChunkB :: numEncode n) ++
      c :: (rest ++ [endChunkB])) 7 = .error .unpackingError :=
    checkSeparator_ne' _ (startChunkB :: numEncode n) (rest ++ [endChunkB]) c 7
      rfl (by simp [h6]) hc
  show unpackChunkF _ _ = .error .unpackingError
  simp only [unpackChunkF, hcc, exBind_ok, h1, pyIntParse_numEncode, h2,
    exBind_error]

theorem unpack_bad_sep_after_item (payload : List Nat) (c : Nat)
    (rest : List Nat) (hp : payload.length < 1000000) (hc : c ≠ separatorB) :
    unpack (.str ((startChunkB :: numEncode 1) ++ separatorB ::
      (numEncode payload.length ++ separatorB ::
        (payload ++ c :: (rest ++ [endChunkB]))))) =
      .error .unpackingError := by
  have h61 : (numEncode 1).length = 6 := numEncode_len 1 (by norm_num)
  have h6L : (numEncode payload.length).length = 6 := numEncode_len _ hp
  have hlast : ((startChunkB :: numEncode 1) ++ separatorB ::
      (numEncode payload.length ++ separatorB ::
        (payload ++ c :: (rest ++ [endChunkB])))).getLast? = some endChunkB := by
    rw [show (startChunkB :: numEncode 1) ++ separatorB ::
        (numEncode payload.length ++ separatorB ::
          (payload ++ c :: (rest ++ [endChunkB]))) =
        ((startChunkB :: numEncode 1) ++ separatorB ::
          (numEncode payload.length ++ separatorB ::
            (payload ++ c :: rest))) ++ [endChunkB] by
      simp [List.append_assoc, List.cons_append]]
    exact List.getLast?_concat _
  have hhead : ((startChunkB :: numEncode 1) ++ separatorB ::
      (numEncode payload.length ++ separatorB ::
        (payload ++ c :: (rest ++ [endChunkB])))).head? = some startChunkB := rfl
  have hcc : checkChunk ((startChunkB :: numEncode 1) ++ separatorB ::
      (numEncode payload.length ++ separatorB ::
        (payload ++ c :: (rest ++ [endChunkB])))) = .ok () := by
    unfold checkChunk
    rw [if_pos hhead, if_pos hlast]
  have h1 : pySlice ((startChunkB :: numEncode 1) ++ separatorB ::
      (numEncode payload.length ++ separatorB ::
        (payload ++ c :: (rest ++ [endChunkB])))) 1 7 = numEncode 1 :=
    pySlice_exact' _ [startChunkB] (numEncode 1)
      (separatorB :: (numEncode payload.length ++ separatorB ::
        (payload ++ c :: (rest ++ [endChunkB])))) _ _
      (by simp [List.append_assoc, List.cons_append]) rfl (by simp [h61])
  have h2 : checkSeparator ((startChunkB :: numEncode 1) ++ separatorB ::
      (numEncode payload.length ++ separatorB ::
        (payload ++ c :: (rest ++ [endChunkB])))) 7 = .ok () :=
    checkSeparator_at' _ (startChunkB :: numEncode 1)
      (numEncode payload.length ++ separatorB ::
        (payload ++ c :: (rest ++ [endChunkB]))) 7
      rfl (by simp [h61])
  have h3 : pySlice ((startChunkB :: numEncode 1) ++ separatorB ::
      (numEncode payload.length ++ separatorB ::
        (payload ++ c :: (rest ++ [endChunkB])))) 8 (8 + 6) =
      numEncode payload.length :=
    pySlice_exact' _ ((startChunkB :: numEncode 1) ++ [separatorB])
      (numEncode payload.length)
      (separatorB :: (payload ++ c :: (rest ++ [endChunkB]))) _ _
      (by simp [List.append_assoc, List.cons_append])
      (by simp [h61]) (by simp [h61, h6L])
  have h4 : checkSeparator ((startChunkB :: numEncode 1) ++ separatorB ::
      (numEncode payload.length ++ separatorB ::
        (payload ++ c :: (rest ++ [endChunkB])))) (8 + 6) = .ok () :=
    checkSeparator_at' _
      ((startChunkB :: numEncode 1) ++ separatorB :: numEncode payload.length)
      (payload ++ c :: (rest ++ [endChunkB])) (8 + 6)
      (by simp [List.append_assoc, List.cons_append])
      (by simp only [List.length_append, List.length_cons, h61, h6L])
  have h5 : pySlice ((startChunkB :: numEncode 1) ++ separatorB ::
      (numEncode payload.length ++ separatorB ::
        (payload ++ c :: (rest ++ [endChunkB])))) (8 + 7)
        (8 + 7 + payload.length) = payload :=
    pySlice_exact' _
      ((startChunkB :: numEncode 1) ++ separatorB ::
        (numEncode payload.length ++ [separatorB]))
      payload (c :: (rest ++ [endChunkB])) _ _
      (by simp [List.append_assoc, List.cons_append])
      (by simp only [List.length_append, List.length_cons, List.length_nil,
            h61, h6L])
      (by simp only [List.length_append, List.length_cons, List.length_nil,
            h61, h6L])
  have h7 : checkSeparator ((startChunkB :: numEncode 1) ++ separatorB ::
      (numEncode payload.length ++ separatorB ::
        (payload ++ c :: (rest ++ [endChunkB])))) (8 + 7 + payload.length) =
      .error .unpackingError :=
    checkSeparator_ne' _
      ((startChunkB :: numEncode 1) ++ separatorB ::
        (numEncode payload.length ++ separatorB :: payload))
      (rest ++ [endChunkB]) c (8 + 7 + payload.length)
      (by simp [List.append_assoc, List.cons_append])
      (by simp only [List.length_append, List.length_cons, h61, h6L]
          omega)
      hc
  have hloop : unpackLoop
      (unpackChunkF ((startChunkB :: numEncode 1) ++ separatorB ::
        (numEncode payload.length ++ separatorB ::
          (payload ++ c :: (rest ++ [endChunkB])))).length)
      ((startChunkB :: numEncode 1) ++ separatorB ::
        (numEncode payload.length ++ separatorB ::
          (payload ++ c :: (rest ++ [endChunkB])))) 8 1 =
      .error .unpackingError := by
    show unpackLoop _ _ 8 (0 + 1) = _
    rw [unpackLoop_succ]
    simp only [h3, pyIntParse_numEncode, exBind_ok, h4, h5, h7, exBind_error]
  show unpackChunkF _ _ = .error .unpackingError
  rw [unpackChunkF_succ]
  simp only [hcc, exBind_ok, h1, pyIntParse_numEncode, h2, hloop]

theorem unpack_len_past_end (itemL : Nat) (tail : List Nat)
    (hL : itemL < 1000000) (hover : tail.length + 1 ≤ itemL) :
    unpack (.str ((startChunkB :: numEncode 1) ++ separatorB ::
      (numEncode itemL ++ separatorB :: (tail ++ [endChunkB])))) =
      .error .indexError := by
  have h61 : (numEncode 1).length = 6 := numEncode_len 1 (by norm_num)
  have h6L : (numEncode itemL).length = 6 := numEncode_len _ hL
  have hlast : ((startChunkB :: numEncode 1) ++ separatorB ::
      (numEncode itemL ++ separatorB :: (tail ++ [endChunkB]))).getLast? =
      some endChunkB := by
    rw [show (startChunkB :: numEncode 1) ++ separatorB ::
        (numEncode itemL ++ separatorB :: (tail ++ [endChunkB])) =
        ((startChunkB :: numEncode 1) ++ separatorB ::
          (numEncode itemL ++ separatorB :: tail)) ++ [endChunkB] by
      simp [List.append_assoc, List.cons_append]]
    exact List.getLast?_concat _
  have hhead : ((startChunkB :: numEncode 1) ++ separatorB ::
      (numEncode itemL ++ separatorB :: (tail ++ [endChunkB]))).head? =
      some startChunkB := rfl
  have hcc : checkChunk ((startChunkB :: numEncode 1) ++ separatorB ::
      (numEncode itemL ++ separatorB :: (tail ++ [endChunkB]))) = .ok () := by
    unfold checkChunk
    rw [if_pos hhead, if_pos hlast]
  have h1 : pySlice ((startChunkB :: numEncode 1) ++ separatorB ::
      (numEncode itemL ++ separatorB :: (tail ++ [endChunkB]))) 1 7 =
      numEncode 1 :=
    pySlice_exact' _ [startChunkB] (numEncode 1)
      (separatorB :: (numEncode itemL ++ separatorB :: (tail ++ [endChunkB]))) _ _
      (by simp [List.append_assoc, List.cons_append]) rfl (by simp [h61])
  have h2 : checkSeparator ((startChunkB :: numEncode 1) ++ separatorB ::
      (numEncode itemL ++ separatorB :: (tail ++ [endChunkB]))) 7 = .ok () :=
    checkSeparator_at' _ (startChunkB :: numEncode 1)
      (numEncode itemL ++ separatorB :: (tail ++ [endChunkB])) 7
      rfl (by simp [h61])
  have h3 : pySlice ((startChunkB :: numEncode 1) ++ separatorB ::
      (numEncode itemL ++ separatorB :: (tail ++ [endChunkB]))) 8 (8 + 6) =
      numEncode itemL :=
    pySlice_exact' _ ((startChunkB :: numEncode 1) ++ [separatorB])
      (numEncode itemL) (separatorB :: (tail ++ [endChunkB])) _ _
      (by simp [List.append_assoc, List.cons_append])
      (by simp [h61]) (by simp [h61, h6L])
  have h4 : checkSeparator ((startChunkB :: numEncode 1) ++ separatorB ::
      (numEncode itemL ++ separatorB :: (tail ++ [endChunkB]))) (8 + 6) =
      .ok () :=
    checkSeparator_at' _
      ((startChunkB :: numEncode 1) ++ separatorB :: numEncode itemL)
      (tail ++ [endChunkB]) (8 + 6)
      (by simp [List.append_assoc, List.cons_append])
      (by simp only [List.length_append, List.length_cons, h61, h6L])
  have h5 : checkSeparator ((startChunkB :: numEncode 1) ++ separatorB ::
      (numEncode itemL ++ separatorB :: (tail ++ [endChunkB])))
      (8 + 7 + itemL) = .error .indexError := by
    apply checkSeparator_oob
    simp only [List.length_append, List.length_cons, List.length_nil, h61, h6L]
    omega
  have hloop : unpackLoop
      (unpackChunkF ((startChunkB :: numEncode 1) ++ separatorB ::
        (numEncode itemL ++ separatorB :: (tail ++ [endChunkB]))).length)
      ((startChunkB :: numEncode 1) ++ separatorB ::
        (numEncode itemL ++ separatorB :: (tail ++ [endChunkB]))) 8 1 =
      .error .indexError := by
    show unpackLoop _ _ 8 (0 + 1) = _
    rw [unpackLoop_succ]
    simp only [h3, pyIntParse_numEncode, exBind_ok, h4, h5, exBind_error]
  show unpackChunkF _ _ = .error .indexError
  rw [unpackChunkF_succ]
  simp only [hcc, exBind_ok, h1, pyIntParse_numEncode, h2, hloop]

/-! ## Auxiliary facts for the claims -/

theorem utf8Char_ne_nil (c : Char) : utf8Char c ≠ [] := by
  unfold utf8Char
  simp only []
  split
  · simp
  · split
    · simp
    · split <;> simp

theorem utf8Encode_ne_nil (s : String) (h : s ≠ "") : utf8Encode s ≠ [] := by
  cases s with
  | mk data =>
    cases data with
    | nil => exact absurd rfl h
    | cons c t =>
      show utf8Char c ++ _ ≠ []
      intro hx
      exact utf8Char_ne_nil c (List.append_eq_nil.mp hx).1

theorem Instructions.execute_ok {Ctx : Type} (exec : Instr → Ctx → Ctx × Outcome)
    (hexec : ∀ ins c, outcomeKnown (exec ins c).2 = true) :
    ∀ (items : List WireVal) (ctx : Ctx) (collected : List WireVal),
      (∀ it ∈ items, wfInstrItem it = true) →
      (Instructions.execute exec items ctx collected).2.2 = Option.none ∧
      ∃ payloads : List (List Nat), payloads.length = items.length ∧
        (Instructions.execute exec items ctx collected).2.1 =
          collected ++ List.zipWith mkEntry (items.map itemId) payloads := by
  intro items
  induction items with
  | nil =>
    intro ctx collected _
    exact ⟨rfl, [], rfl, by simp [Instructions.execute]⟩
  | cons it rest ih =>
    intro ctx collected hitems
    have hwf := hitems it (List.mem_cons_self it rest)
    cases it with
    | str s => simp [wfInstrItem] at hwf
    | list params =>
      cases params with
      | nil => simp [wfInstrItem] at hwf
      | cons p0 ps =>
        cases ps with
        | nil => simp [wfInstrItem] at hwf
        | cons p1 rest2 =>
          cases p1 with
          | list l => simp [wfInstrItem] at hwf
          | str k =>
            simp only [wfInstrItem] at hwf
            obtain ⟨kd, hkd⟩ := Option.isSome_iff_exists.mp hwf
            have hif : instruction_for (p0 :: WireVal.str k :: rest2) =
                .ok ⟨kd, p0, rest2⟩ := by
              simp [instruction_for, hkd]
            rcases hE : exec ⟨kd, p0, rest2⟩ ctx with ⟨ctx1, outc⟩
            have happ : ∃ pay,
                applyOutcome ⟨kd, p0, rest2⟩ collected outc =
                  .ok (collected ++ [mkEntry p0 pay]) := by
              cases outc with
              | ok => exact ⟨okB, rfl⟩
              | value v => exact ⟨if truthy v then pyStr v else voidB, rfl⟩
              | raisedExc e =>
                have hko := hexec ⟨kd, p0, rest2⟩ ctx
                rw [hE] at hko
                simp only [outcomeKnown] at hko
                obtain ⟨tag, htag⟩ := Option.isSome_iff_exists.mp hko
                exact ⟨excMessage tag (excArgs0 e),
                  by simp [applyOutcome, Results.raised, Results.translate,
                    htag, excMessage, mkEntry, List.append_assoc]⟩
            obtain ⟨pay, hpay⟩ := happ
            have hstep : Instructions.execute exec
                (WireVal.list (p0 :: WireVal.str k :: rest2) :: rest) ctx
                collected =
                Instructions.execute exec rest ctx1
                  (collected ++ [mkEntry p0 pay]) := by
              simp only [Instructions.execute, hif, hE, hpay]
            rw [hstep]
            obtain ⟨h1, ps, hlen, h2⟩ := ih ctx1 (collected ++ [mkEntry p0 pay])
              (fun w hw => hitems w (List.mem_cons_of_mem _ hw))
            refine ⟨h1, pay :: ps, by simp [hlen], ?_⟩
            rw [h2]
            simp [itemId, List.append_assoc]

/-! ## Claims -/

/-- C1 (counterexample): the round-trip law fails as stated.  Packing the
one-element list whose string is empty emits the `'null'` sentinel (the
source stringifies a falsy item as `'null'`), so decoding does not give back
the original value. -/
theorem c1_round_trip_counterexample :
    unpack (.str (pack [WireVal.str []])) ≠ .ok [WireVal.str []] := by
  have h : unpack (.str (pack [WireVal.str []])) = .ok [WireVal.str nullB] := rfl
  rw [h]
  intro hEq
  have h2 := Except.ok.inj hEq
  have h3 : WireVal.str nullB = WireVal.str [] := by
    injection h2 with ha hb
  injection h3 with h4
  exact absurd h4 (by decide)

/-- C1 (amended): decoding inverts encoding for every finite tree of strings
in which each string leaf is nonempty, no string leaf both starts with `'['`
and ends with `']'`, and each length field fits the fixed six-digit width
(`wfList`); the top-level list must likewise have fewer than `10^6` elements.
Determinism of `encode` is immediate since `pack` is a function of its
argument.  The claim as frozen, quantified over all trees of strings, is
refuted by `c1_round_trip_counterexample`. -/
theorem c1_round_trip_wf (l : List WireVal) (hwf : wfList l = true)
    (hlen : l.length < 1000000) : unpack (.str (pack l)) = .ok l :=
  unpack_pack_wf l hwf hlen

/-- C1 (witness): the round trip evaluated on a concrete well-formed tree. -/
theorem c1_round_trip_wf_witness :
    (wfList demoTree = true ∧ demoTree.length < 1000000) ∧
    unpack (.str (pack demoTree)) = .ok demoTree :=
  ⟨⟨by decide, by decide⟩, c1_round_trip_wf demoTree (by decide) (by decide)⟩

/-- C2 (counterexample): the byte-length claim fails for the empty string:
the emitted length field is `000004` (for the `'null'` sentinel that replaces
a falsy item), not the UTF-8 byte length `000000` of the string itself. -/
theorem c2_byte_length_counterexample :
    packItem (WireVal.str (utf8Encode "")) ≠
      numEncode (utf8Encode "").length ++ separatorB :: utf8Encode "" := by
  decide

/-- C2 (amended): for every nonempty string, the length field emitted by the
encoder is exactly the six-digit UTF-8 byte count of the string — not its
character count — and the decoder, advancing by byte offsets, recovers the
string from its encoding (when the string is within the positional bounds and
not itself chunk shaped).  The claim as frozen, quantified over every string,
is refuted at the empty string by `c2_byte_length_counterexample`. -/
theorem c2_byte_length_exact (s : String) (h : s ≠ "") :
    packItem (WireVal.str (utf8Encode s)) =
      numEncode (utf8Encode s).length ++ separatorB :: utf8Encode s ∧
    ((utf8Encode s).length < 1000000 → isChunkShaped (utf8Encode s) = false →
      unpack (.str (pack [WireVal.str (utf8Encode s)])) =
        .ok [WireVal.str (utf8Encode s)]) := by
  have hne : utf8Encode s ≠ [] := utf8Encode_ne_nil s h
  have hempty : (utf8Encode s).isEmpty = false := by
    cases hu : utf8Encode s with
    | nil => exact absurd hu hne
    | cons a t => rfl
  constructor
  · rw [packItem_str, packStrItem_of_ne_nil _ hne]
  · intro h1 h2
    apply unpack_pack_wf
    · simp [wfList, wfVal, hempty, h2, h1]
    · norm_num

/-- C2 (witness): a concrete multi-byte example: `"héllo"` has five
characters but six UTF-8 bytes, and the length field counts the bytes. -/
theorem c2_byte_length_witness :
    (("héllo" : String) ≠ "" ∧ (utf8Encode "héllo").length = 6 ∧
      ("héllo" : String).length = 5) ∧
    packItem (WireVal.str (utf8Encode "héllo")) =
      numEncode (utf8Encode "héllo").length ++ separatorB :: utf8Encode "héllo" ∧
    unpack (.str (pack [WireVal.str (utf8Encode "héllo")])) =
      .ok [WireVal.str (utf8Encode "héllo")] :=
  ⟨⟨by decide, by decide, by decide⟩,
    (c2_byte_length_exact "héllo" (by decide)).1,
    (c2_byte_length_exact "héllo" (by decide)).2 (by decide) (by decide)⟩

/-- C3 (counterexample): an unknown kind tag aborts the batch.  A batch of
two instruction tuples whose first has the unknown tag `'bogus'` stops with
an uncaught `KeyError` from the `_INSTRUCTION_TYPES` lookup: no entry is
recorded for either instruction, not the two entries the claim requires. -/
theorem c3_batch_abort_counterexample :
    Instructions.execute execNoop
      [WireVal.list [WireVal.str (strBytes "id1"), WireVal.str (strBytes "bogus")],
       WireVal.list [WireVal.str (strBytes "id2"), WireVal.str (strBytes "import"),
         WireVal.str (strBytes "mod")]] () [] =
      ((), [], some PyErr.keyError) := rfl

/-- C3 (amended): for a batch of K instruction tuples in which every tuple
has at least two elements and a known string kind tag, and whose instruction
bodies (the `execution` module, Modelled from the spec, see `Outcome`) record
exactly one outcome each with only table-known exceptions, execution
completes the whole batch: no exception escapes and exactly K result entries
are collected, in receipt order, each echoing its tuple's id.  A failing
instruction whose failure is recorded through `raised` does not abort the
batch; an unknown or missing kind tag, however, aborts it
(`c3_batch_abort_counterexample`), contrary to the claim as frozen. -/
theorem c3_batch_progress {Ctx : Type} (exec : Instr → Ctx → Ctx × Outcome)
    (items : List WireVal) (ctx : Ctx) (collected : List WireVal)
    (hitems : ∀ it ∈ items, wfInstrItem it = true)
    (hexec : ∀ ins c, outcomeKnown (exec ins c).2 = true) :
    (Instructions.execute exec items ctx collected).2.2 = Option.none ∧
    ∃ payloads : List (List Nat), payloads.length = items.length ∧
      (Instructions.execute exec items ctx collected).2.1 =
        collected ++ List.zipWith mkEntry (items.map itemId) payloads :=
  Instructions.execute_ok exec hexec items ctx collected hitems

/-- C3 (witness): a concrete two-instruction batch runs to completion with
two collected entries. -/
theorem c3_batch_progress_witness :
    (Instructions.execute execNoop demoBatch () []).2.2 = Option.none ∧
    (Instructions.execute execNoop demoBatch () []).2.1.length = 2 := by
  have h := c3_batch_progress execNoop demoBatch () [] (by decide)
    (fun ins c => rfl)
  obtain ⟨h1, ps, hlen, h2⟩ := h
  refine ⟨h1, ?_⟩
  rw [h2]
  simp [hlen, demoBatch]

/-- C4 (counterexample): `completed` with the value `0` records the void
sentinel, not `str(0) = '0'`: the source tests Python truthiness, so every
falsy value — not only the absent-return sentinel — maps to `/__VOID__/`. -/
theorem c4_void_mapping_counterexample :
    Results.completed [] demoInstr (some (PyVal.pyint 0)) =
      [mkEntry demoInstr.instruction_id voidB] ∧
    pyStr (PyVal.pyint 0) ≠ voidB :=
  ⟨rfl, by decide⟩

/-- C4 (amended): `completed(id, value)` records `(id, '/__VOID__/')` exactly
when the value is falsy (`None`, `False`, `0`, the empty string, the empty
list), records `(id, str(value))` for every truthy value, and records
`(id, 'OK')` when no value is passed at all.  The claim as frozen — void for
the sentinel only, `to_string` for values such as `0`, `False`, `''`, `[]` —
is refuted by `c4_void_mapping_counterexample`. -/
theorem c4_void_mapping (collected : List WireVal) (instruction : Instr)
    (v : PyVal) :
    (truthy v = true →
      Results.completed collected instruction (some v) =
        collected ++ [mkEntry instruction.instruction_id (pyStr v)]) ∧
    (truthy v = false →
      Results.completed collected instruction (some v) =
        collected ++ [mkEntry instruction.instruction_id voidB]) ∧
    Results.completed collected instruction Option.none =
      collected ++ [mkEntry instruction.instruction_id okB] := by
  refine ⟨fun ht => ?_, fun hf => ?_, rfl⟩
  · simp [Results.completed, ht]
  · simp [Results.completed, hf]

/-- C4 (witness): the mapping evaluated at a truthy and at a falsy value. -/
theorem c4_void_mapping_witness :
    (truthy (PyVal.pyint 5) = true ∧
      Results.completed [] demoInstr (some (PyVal.pyint 5)) =
        [] ++ [mkEntry demoInstr.instruction_id (pyStr (PyVal.pyint 5))]) ∧
    (truthy (PyVal.pystr []) = false ∧
      Results.completed [] demoInstr (some (PyVal.pystr [])) =
        [] ++ [mkEntry demoInstr.instruction_id voidB]) :=
  ⟨⟨by decide, (c4_void_mapping [] demoInstr (PyVal.pyint 5)).1 (by decide)⟩,
   ⟨by decide, (c4_void_mapping [] demoInstr (PyVal.pystr [])).2.1 (by decide)⟩⟩

/-- C5 (counterexample): an exception outside the five-entry table gets no
generic tag: `_translate` fails its dict lookup with `KeyError` and `raised`
records nothing. -/
theorem c5_generic_tag_counterexample :
    Results.raised [] demoInstr
      (.otherException (strBytes "ValueError") (strBytes "boom")) =
      .error .keyError := rfl

/-- C5 (amended): `raised(id, exception)` records
`(id, '__EXCEPTION__: message:<<TAG detail>>')` with the table-mapped tag for
each of the five known error kinds; for an exception whose type is not in the
table there is no generic fallback — the lookup raises `KeyError`
(`c5_generic_tag_counterexample`), contrary to the claim as frozen. -/
theorem c5_exception_translation :
    (∀ collected ins msg, Results.raised collected ins
        (.instructionException msg) =
      .ok (collected ++ [mkEntry ins.instruction_id
        (excMessage (strBytes "MALFORMED_INSTRUCTION") msg)])) ∧
    (∀ collected ins msg, Results.raised collected ins
        (.noSuchClassException msg) =
      .ok (collected ++ [mkEntry ins.instruction_id
        (excMessage (strBytes "NO_CLASS") msg)])) ∧
    (∀ collected ins msg, Results.raised collected ins
        (.noSuchConstructorException msg) =
      .ok (collected ++ [mkEntry ins.instruction_id
        (excMessage (strBytes "COULD_NOT_INVOKE_CONSTRUCTOR") msg)])) ∧
    (∀ collected ins msg, Results.raised collected ins
        (.noSuchInstanceException msg) =
      .ok (collected ++ [mkEntry ins.instruction_id
        (excMessage (strBytes "NO_INSTANCE") msg)])) ∧
    (∀ collected ins msg, Results.raised collected ins
        (.noSuchMethodException msg) =
      .ok (collected ++ [mkEntry ins.instruction_id
        (excMessage (strBytes "NO_METHOD_IN_CLASS") msg)])) ∧
    (∀ collected ins typeName msg, Results.raised collected ins
        (.otherException typeName msg) = .error .keyError) :=
  ⟨fun _ _ _ => rfl, fun _ _ _ => rfl, fun _ _ _ => rfl, fun _ _ _ => rfl,
    fun _ _ _ => rfl, fun _ _ _ _ => rfl⟩

/-- C6 (counterexample): a declared item length running past the end of the
buffer does not raise `UnpackingError`: the separator check indexes past the
end of the string first, raising `IndexError`.  Input:
`'[000001:000005:ab:]'` (item length 5, only 2 payload bytes). -/
theorem c6_reject_counterexample :
    unpack (.str (utf8Encode "[000001:000005:ab:]")) = .error .indexError := rfl

/-- C6 (amended): a missing leading `'['`, a missing trailing `']'`, a
non-separator byte after the six-digit count, and a non-separator byte after
an item each raise `UnpackingError`; a declared item length that reaches or
passes the end of the buffer instead raises `IndexError` from the positional
index of `_check_separator` (`c6_reject_counterexample`), contrary to the
claim as frozen (which expects `UnpackingError` and no other kind for all
five). -/
theorem c6_reject_conditions :
    (∀ s : List Nat, s.head? ≠ some startChunkB →
      unpack (.str s) = .error .unpackingError) ∧
    (∀ s : List Nat, s.head? = some startChunkB →
      s.getLast? ≠ some endChunkB →
      unpack (.str s) = .error .unpackingError) ∧
    (∀ (n c : Nat) (rest : List Nat), n < 1000000 → c ≠ separatorB →
      unpack (.str ((startChunkB :: numEncode n) ++ c :: (rest ++ [endChunkB]))) =
        .error .unpackingError) ∧
    (∀ (payload : List Nat) (c : Nat) (rest : List Nat),
      payload.length < 1000000 → c ≠ separatorB →
      unpack (.str ((startChunkB :: numEncode 1) ++ separatorB ::
        (numEncode payload.length ++ separatorB ::
          (payload ++ c :: (rest ++ [endChunkB]))))) =
        .error .unpackingError) ∧
    (∀ (itemL : Nat) (tail : List Nat), itemL < 1000000 →
      tail.length + 1 ≤ itemL →
      unpack (.str ((startChunkB :: numEncode 1) ++ separatorB ::
        (numEncode itemL ++ separatorB :: (tail ++ [endChunkB])))) =
        .error .indexError) :=
  ⟨unpack_no_lead, unpack_no_trail, unpack_bad_sep_after_count,
    unpack_bad_sep_after_item, unpack_len_past_end⟩

/-- C6 (witness): each rejection family evaluated on a concrete input. -/
theorem c6_reject_witness :
    unpack (.str (utf8Encode "x")) = .error .unpackingError ∧
    unpack (.str (utf8Encode "[x")) = .error .unpackingError ∧
    unpack (.str ((startChunkB :: numEncode 0) ++ 120 :: ([] ++ [endChunkB]))) =
      .error .unpackingError ∧
    unpack (.str ((startChunkB :: numEncode 1) ++ separatorB ::
      (numEncode [97].length ++ separatorB ::
        ([97] ++ 120 :: ([] ++ [endChunkB]))))) = .error .unpackingError ∧
    unpack (.str ((startChunkB :: numEncode 1) ++ separatorB ::
      (numEncode 3 ++ separatorB :: ([97] ++ [endChunkB])))) =
      .error .indexError :=
  ⟨c6_reject_conditions.1 _ (by decide),
   c6_reject_conditions.2.1 _ (by decide) (by decide),
   c6_reject_conditions.2.2.1 0 120 [] (by decide) (by decide),
   c6_reject_conditions.2.2.2.1 [97] 120 [] (by decide) (by decide),
   c6_reject_conditions.2.2.2.2 3 [97] (by decide) (by decide)⟩

/-- C7: the handshake-and-bye session.  On the ten client bytes
`'000003:bye'` the responder sends exactly the thirteen-byte banner
`'Slim -- V0.0\n'` and nothing else, consumes the whole input, terminates
cleanly, and returns the totals `(received = 10, sent = 13)`. -/
theorem c7_handshake_bye :
    respond_to_request execNoop () ⟨strBytes "000003:bye", []⟩ =
      .ok (10, 13, ⟨[], versionB⟩) ∧
    versionB.length = 13 ∧ (strBytes "000003:bye").length = 10 :=
  ⟨rfl, by decide, by decide⟩

/-- C8: the list returned by `collection()` is a fresh copy: its contents
equal the collected entries at the moment of the call, and a later
`completed()` or `raised()` on the same `Results` object — which mutates the
internal list in place — leaves the returned copy unchanged.  The hypothesis
says the collector's internal list was allocated before the current
allocation frontier, which `Results.init` guarantees. -/
theorem c8_snapshot_stable (st : Store) (r : Nat) (instruction : Instr)
    (result : Option PyVal) (exception : PyExc) (h : r < st.nextRef) :
    (Results.collectionS st r).1.heap (Results.collectionS st r).2 =
      st.heap r ∧
    (Results.completedS (Results.collectionS st r).1 r instruction
        result).heap (Results.collectionS st r).2 = st.heap r ∧
    Except.map (fun st2 => st2.heap (Results.collectionS st r).2)
        (Results.raisedS (Results.collectionS st r).1 r instruction exception) =
      Except.map (fun _ => st.heap r)
        (Results.raisedS (Results.collectionS st r).1 r instruction
          exception) := by
  have hne : st.nextRef ≠ r := by omega
  have hcol : (Results.collectionS st r).1.heap r = st.heap r := by
    simp [Results.collectionS, Ne.symm hne]
  refine ⟨?_, ?_, ?_⟩
  · simp [Results.collectionS]
  · simp [Results.collectionS, Results.completedS, Store.write, hne]
  · simp only [Results.raisedS, hcol]
    rcases hR : Results.raised (st.heap r) instruction exception with e | l
    · rfl
    · show Except.map _ (Except.ok _) = Except.map _ (Except.ok _)
      simp [Except.map, Store.write, Results.collectionS, hne]

/-- C8 (witness): the snapshot facts evaluated on a one-object heap. -/
theorem c8_snapshot_witness :
    (0 < demoStore.nextRef) ∧
    ((Results.collectionS demoStore 0).1.heap
        (Results.collectionS demoStore 0).2 = demoStore.heap 0 ∧
      (Results.completedS (Results.collectionS demoStore 0).1 0 demoInstr
          (some (PyVal.pyint 5))).heap (Results.collectionS demoStore 0).2 =
        demoStore.heap 0 ∧
      Except.map (fun st2 => st2.heap (Results.collectionS demoStore 0).2)
          (Results.raisedS (Results.collectionS demoStore 0).1 0 demoInstr
            (.noSuchClassException (strBytes "X"))) =
        Except.map (fun _ => demoStore.heap 0)
          (Results.raisedS (Results.collectionS demoStore 0).1 0 demoInstr
            (.noSuchClassException (strBytes "X")))) :=
  ⟨by decide, c8_snapshot_stable demoStore 0 demoInstr (some (PyVal.pyint 5))
    (.noSuchClassException (strBytes "X")) (by decide)⟩

/-- C9: the true/false bool converter answers true exactly on strings whose
lowercase form is `'true'`; its `to_string` answers `'true'` for `True` and
`'false'` for `False`; and the converter registered for the `bool` type by
the module-level registrations is this converter, not the yes/no
alternative. -/
theorem c9_true_false_converter :
    (∀ s : List Nat, TrueFalseConverter.from_string s = true ↔
      pyLower s = strBytes "true") ∧
    TrueFalseConverter.to_string true = strBytes "true" ∧
    TrueFalseConverter.to_string false = strBytes "false" ∧
    lookupConverter .bool = some .trueFalse :=
  ⟨fun s => by simp [TrueFalseConverter.from_string],
    rfl, rfl, rfl⟩

/-- C10: `unpack` raises `TypeError` — not `UnpackingError` — on every input
that is not a string, without decoding anything; only string inputs reach the
chunk decoder. -/
theorem c10_nonstring_type_error (x : PyInput)
    (h : ∀ s, x ≠ PyInput.str s) : unpack x = .error .typeError := by
  cases x with
  | str s => exact absurd rfl (h s)
  | nonString d => rfl

/-- C10 (witness): evaluated on a concrete non-string input. -/
theorem c10_nonstring_witness :
    unpack (PyInput.nonString (strBytes "fortytwo")) = .error .typeError :=
  c10_nonstring_type_error _ (fun _ h => PyInput.noConfusion h)
